import Mathlib

/-!
Verification development for the `azure-vm-reports` repository
(`azure_vm_reports.py` and `ansible_callbacks.py`).

Shallow embedding conventions:

* Python strings are Lean `String`s; scanning works over `String.data`
  (`List Char`).
* `re.search(pat, s)` is modelled by `reSearch m s.data`, which tries the
  pattern matcher `m` at every start position from the left, exactly like
  Python's scan.  Each concrete pattern of `ansible_callbacks.py` gets its
  own matcher (`kbAt`, `cpuAt`, `memAt`, `cpuPctAt`); these patterns are
  backtracking-free (after a greedy `\d+`, `\s*` or `[\d.]+` run the
  following literal can never be taken from the run), so a deterministic
  greedy matcher is exact.
* Python `\d` is modelled by `Char.isDigit` and `\s` by
  `Char.isWhitespace` (the inputs of interest are ASCII command output).
* `None` / exceptions are `Option`: a Python function that can raise
  (KeyError / AttributeError / IOError) returns `none` there.
* Python dicts keyed by strings are association lists `List (String × α)`
  with `dictInsert` (replace-in-place or append), which reproduces dict
  assignment semantics: last write wins, first-insertion position kept.
* `round` on `k * 10 ** -6` is modelled exactly on the rational `k/10⁶`
  with Python's round-half-to-even (`pyRound`); the float product agrees
  with the exact rational at every input considered here.
-/

/-- Matcher result of Python whitespace: `\s` of `re`. -/
def isSpaceC (c : Char) : Bool := c.isWhitespace

/-- The `[\d.]` character class of `peak_ram_usage` / `peak_cpu_usage`. -/
def isDotDigit (c : Char) : Bool := c.isDigit || c == '.'

/-- Numeric value of a digit string, as `int(m.group(1))` computes it. -/
def digitsToNat (ds : List Char) : Nat :=
  ds.foldl (fun n c => 10 * n + (c.toNat - 48)) 0

/-- Python `round` (banker's rounding) applied to the exact rational
`k / 1000000`, i.e. `round(int(group) * 10 ** -6)` of `ram_amount`. -/
def pyRound (k : Nat) : Nat :=
  let q := k / 1000000
  let r := k % 1000000
  if r < 500000 then q
  else if 500000 < r then q + 1
  else if q % 2 = 0 then q else q + 1

/-- Model of `re.search`: try the matcher at every start position, leftmost first,
including the empty suffix at the end of the string. -/
def reSearch {α : Type} (m : List Char → Option α) : List Char → Option α
  | [] => m []
  | c :: rest =>
    match m (c :: rest) with
    | some a => some a
    | none => reSearch m rest

/-- Match of `(\d+)\s*kB` anchored at the head of `s`: a nonempty greedy
digit run, optional whitespace, then the literal `kB`; yields the numeric
value of group 1. -/
def kbAt (s : List Char) : Option Nat :=
  let ds := s.takeWhile Char.isDigit
  if ds.isEmpty then none
  else
    match (s.drop ds.length).dropWhile isSpaceC with
    | 'k' :: 'B' :: _ => some (digitsToNat ds)
    | _ => none

/-- Match of `CPU\(s\):\s*(\d+)` anchored at the head of `s`; yields the
digit characters of group 1. -/
def cpuAt (s : List Char) : Option (List Char) :=
  match s with
  | 'C' :: 'P' :: 'U' :: '(' :: 's' :: ')' :: ':' :: rest =>
    let ds := (rest.dropWhile isSpaceC).takeWhile Char.isDigit
    if ds.isEmpty then none else some ds
  | _ => none

/-- Match of `MEM\s*([\d.]+)` anchored at the head of `s`; yields the
characters of group 1. -/
def memAt (s : List Char) : Option (List Char) :=
  match s with
  | 'M' :: 'E' :: 'M' :: rest =>
    let ds := (rest.dropWhile isSpaceC).takeWhile isDotDigit
    if ds.isEmpty then none else some ds
  | _ => none

/-- Match of `CPU\s*([\d.]+)` anchored at the head of `s`; yields the
characters of group 1. -/
def cpuPctAt (s : List Char) : Option (List Char) :=
  match s with
  | 'C' :: 'P' :: 'U' :: rest =>
    let ds := (rest.dropWhile isSpaceC).takeWhile isDotDigit
    if ds.isEmpty then none else some ds
  | _ => none

/-- Model of `ansible_callbacks.ram_amount`: search for `(\d+)\s*kB`, then format
`round(int(group) * 10 ** -6)` as `"<N> GB"`; `None` on no match. -/
def ram_amount (stdout : String) : Option String :=
  (reSearch kbAt stdout.data).map (fun k => toString (pyRound k) ++ " GB")

/-- Model of `ansible_callbacks.cpu_number`: search for `CPU\(s\):\s*(\d+)`, format
group 1 verbatim as `"<digits> CPU(s)"`; `None` on no match. -/
def cpu_number (stdout : String) : Option String :=
  (reSearch cpuAt stdout.data).map (fun ds => String.mk ds ++ " CPU(s)")

/-- Model of `ansible_callbacks.peak_ram_usage`: search for `MEM\s*([\d.]+)`,
format group 1 verbatim as `"<chars>%"`; `None` on no match. -/
def peak_ram_usage (stdout : String) : Option String :=
  (reSearch memAt stdout.data).map (fun ds => String.mk ds ++ "%")

/-- Model of `ansible_callbacks.peak_cpu_usage`: search for `CPU\s*([\d.]+)`,
format group 1 verbatim as `"<chars>%"`; `None` on no match. -/
def peak_cpu_usage (stdout : String) : Option String :=
  (reSearch cpuPctAt stdout.data).map (fun ds => String.mk ds ++ "%")

/-- Lowercasing of a string, `str.lower()` (ASCII data). -/
def lowerS (s : String) : String := String.mk (s.data.map Char.toLower)

/-- A task state held in `host.tasks`: the attributes `load_playbook`
gives every `Task` object (`name` from the playbook entry, the three
result fields initialised to Python `None`). -/
structure TaskR where
  name : String
  callback_result : Option String
  exit_status : Option String
  task_failed : Option Bool
deriving DecidableEq, Repr

/-- A playbook task definition: this program only ever reads its `name`
key. -/
structure PlayTask where
  name : String
deriving DecidableEq, Repr

/-- A `Host` object: its dynamic attributes (set from CSV columns via
`Host(**row)`) plus its `tasks` dict keyed by lowercased task name. -/
structure HostR where
  attrs : List (String × String)
  tasks : List (String × TaskR)
deriving DecidableEq, Repr

/-- Python dict lookup `d[k]` on an association list: `none` models the
KeyError / AttributeError raised when the key is absent. -/
def lookupD {α : Type} (d : List (String × α)) (k : String) : Option α :=
  (d.find? (fun p => p.1 == k)).map (fun p => p.2)

/-- Python dict assignment `d[k] = v`: overwrite in place if the key is
present (keys are unique), otherwise append. -/
def dictInsert {α : Type} : List (String × α) → String → α → List (String × α)
  | [], k, v => [(k, v)]
  | (k0, v0) :: t, k, v =>
    if k0 == k then (k, v) :: t else (k0, v0) :: dictInsert t k v

/-- Model of `getattr(host, a)`: `none` models the AttributeError on a missing
attribute. -/
def HostR.getAttr (h : HostR) (a : String) : Option String := lookupD h.attrs a

/-- Patterns this program hands to `re.match`: sequences of literal
characters (including escaped literals such as `\.`) and greedy `\d+`
atoms — exactly the constructs appearing in its filter patterns. -/
inductive Atom where
  | lit (c : Char)
  | digits1
deriving DecidableEq, Repr

/-- Model of `re.match(pat, s)` anchored at the start of `s` (a prefix may remain
unconsumed).  `\d+` is matched greedily; in every pattern of this program
the atom after a `\d+` cannot consume a digit, so greediness is exact. -/
def matchAtStart : List Atom → List Char → Bool
  | [], _ => true
  | Atom.lit c :: p, d :: s => if d == c then matchAtStart p s else false
  | Atom.lit _ :: _, [] => false
  | Atom.digits1 :: p, s =>
    let ds := s.takeWhile Char.isDigit
    if ds.isEmpty then false else matchAtStart p (s.drop ds.length)

/-- Effect of `pat.lower()` applied to a pattern string: literal characters are
lowercased, `\d` is unaffected. -/
def lowerPat (p : List Atom) : List Atom :=
  p.map (fun a => match a with
    | Atom.lit c => Atom.lit c.toLower
    | Atom.digits1 => Atom.digits1)

/-- Model of `Host.has_fields`: for each `(k, v)` pair in order, evaluate
`re.match(v.lower(), getattr(self, k.lower()).lower())`; return `False`
at the first non-match, `True` if all match.  `none` models the
AttributeError when `getattr` fails first. -/
def HostR.has_fields (h : HostR) : List (String × List Atom) → Option Bool
  | [] => some true
  | (k, v) :: rest =>
    match h.getAttr (lowerS k) with
    | none => none
    | some s =>
      if matchAtStart (lowerPat v) (lowerS s).data then h.has_fields rest
      else some false

/-- The host loop of `Azure.filter_hosts`: keep, in order, the hosts
whose `has_fields` is `True`; `none` models the AttributeError escaping
from `has_fields`. -/
def filterGo (fs : List (String × List Atom)) : List HostR → Option (List HostR)
  | [] => some []
  | h :: t =>
    match h.has_fields fs with
    | none => none
    | some true => (filterGo fs t).map (fun r => h :: r)
    | some false => filterGo fs t

/-- Model of `Azure.filter_hosts`: `None` fields return the whole host set;
otherwise run the filtering loop.  (Python keys the result dict by
`host.name`; the program only ever filters the CSV-loaded dict, whose
hosts carry distinct names, so a name-keyed dict and the host list are
in bijection.) -/
def filter_hosts (hosts : List HostR) : Option (List (String × List Atom)) → Option (List HostR)
  | none => some hosts
  | some fs => filterGo fs hosts

/-- The `Task` object `load_playbook` builds for a playbook entry:
`Task(**task, callback_result=None, exit_status=None, task_failed=None)`. -/
def mkTask (pt : PlayTask) : TaskR :=
  { name := pt.name, callback_result := none, exit_status := none, task_failed := none }

/-- The inner loop of `load_playbook` over one host: starting from the
host's current `tasks` dict, execute
`host.tasks[task["name"].lower()] = Task(...)` for each playbook task in
order. -/
def buildTasks (d0 : List (String × TaskR)) (pts : List PlayTask) : List (String × TaskR) :=
  pts.foldl (fun d pt => dictInsert d (lowerS pt.name) (mkTask pt)) d0

/-- Model of `Azure.load_playbook`: attach the playbook's task dict to every host. -/
def load_playbook (hosts : List HostR) (pts : List PlayTask) : List HostR :=
  hosts.map (fun h => { h with tasks := buildTasks h.tasks pts })

/-- The fixed registry of output parsers in `ansible_callbacks`;
`getattr(ansible_callbacks, name)` is `lookupD callbackRegistry name`
(`none` models the AttributeError on an unknown name). -/
def callbackRegistry : List (String × (String → Option String)) :=
  [("ram_amount", ram_amount), ("cpu_number", cpu_number),
   ("peak_ram_usage", peak_ram_usage), ("peak_cpu_usage", peak_cpu_usage)]

/-- Model of `ResultsCollector.get_task`:
`self.hosts[str(result._host)].tasks[str(result._task.name)]` — a dict
lookup of the host by name, then of the task by the event's verbatim task
name. -/
def get_task (hosts : List HostR) (hostname taskname : String) : Option TaskR :=
  match hosts.find? (fun h => h.getAttr "name" == some hostname) with
  | none => none
  | some h => lookupD h.tasks taskname

/-- Model of `ResultsCollector.v2_runner_on_ok` on the resolved task: invoke the
parser resolved by `getattr(ansible_callbacks, task.name)` on the stdout
text, store its result, the rc string, and `task_failed = False`.
`none` models the AttributeError when no parser bears that name. -/
def v2_runner_on_ok (t : TaskR) (stdout rc : String) : Option TaskR :=
  match lookupD callbackRegistry t.name with
  | none => none
  | some cb =>
    some { t with callback_result := cb stdout, exit_status := some rc, task_failed := some false }

/-- Model of `ResultsCollector.v2_runner_on_failed` on the resolved task: write
only `exit_status` and `task_failed = True`; no parser is consulted and
`callback_result` is not assigned. -/
def v2_runner_on_failed (t : TaskR) (rc : String) : TaskR :=
  { t with exit_status := some rc, task_failed := some true }

/-- Model of `ResultsCollector.v2_runner_on_unreachable` on the resolved task:
identical writes to the failed handler (plus a stderr log line). -/
def v2_runner_on_unreachable (t : TaskR) (rc : String) : TaskR :=
  { t with exit_status := some rc, task_failed := some true }

/-- One inventory entry written by `generate_yaml` for a host. -/
structure Entry where
  ansible_host : String
  ansible_port : Nat
  ansible_user : String
  ansible_ssh_private_key_file : String
deriving DecidableEq, Repr

/-- An `Option`-valued `map` over a list, propagating the first failure —
the loop body of `generate_yaml` can raise AttributeError per host. -/
def mapO {α β : Type} (f : α → Option β) : List α → Option (List β)
  | [] => some []
  | a :: t =>
    match f a, mapO f t with
    | some b, some bs => some (b :: bs)
    | _, _ => none

/-- The dict entry `generate_yaml` builds for one host:
`{"ansible_host": host.public_ip_address, "ansible_port": 22,
"ansible_user": "ubuntu", "ansible_ssh_private_key_file":
f"/var/lib/jenkins/.ts/admin/rsa/azure/{host.name}/{host.name}"}`
keyed by `host.name`; `none` models AttributeError. -/
def entryOf (h : HostR) : Option (String × Entry) :=
  match h.getAttr "name", h.getAttr "public_ip_address" with
  | some n, some ip =>
    some (n, { ansible_host := ip, ansible_port := 22, ansible_user := "ubuntu",
               ansible_ssh_private_key_file :=
                 "/var/lib/jenkins/.ts/admin/rsa/azure/" ++ n ++ "/" ++ n })
  | _, _ => none

/-- Model of `Azure.generate_yaml`: filter the hosts, build the yaml inventory
dict (one entry per filtered host, in order), and return the filtered
host set itself. -/
def generate_yaml (hosts : List HostR) (fields : Option (List (String × List Atom))) :
    Option (List (String × Entry) × List HostR) :=
  match filter_hosts hosts fields with
  | none => none
  | some hs =>
    match mapO entryOf hs with
    | none => none
    | some inv => some (inv, hs)

/-- A parsed CSV data row as `csv.DictReader` yields it: column name to
cell value.  (The delimiter line and header-line normalisation of
`load_from_csv` fix the column names; the claims below concern only the
dict comprehension over the rows.) -/
def Row : Type := List (String × String)

/-- The `Host` object built for one row:
`Host(**row, tasks={})`. -/
def mkHost (r : Row) : HostR := { attrs := r, tasks := [] }

/-- The dict comprehension of `load_from_csv`,
`{row["name"]: Host(**row, tasks={}) for row in rows}`, as a left fold of
dict assignments; `none` models the KeyError when a row has no `name`
column. -/
def loadCSVgo (d : List (String × HostR)) : List Row → Option (List (String × HostR))
  | [] => some d
  | r :: t =>
    match lookupD r "name" with
    | none => none
    | some n => loadCSVgo (dictInsert d n (mkHost r)) t

/-- Model of `Azure.load_from_csv` restricted to its row loop: build the
name-keyed host registry `self.hosts` from the parsed data rows. -/
def load_from_csv (rows : List Row) : Option (List (String × HostR)) :=
  loadCSVgo [] rows

/-- The last row of the file bearing a given name value — the row whose
`Host` survives the dict comprehension. -/
def findLastRow (n : String) : List Row → Option Row
  | [] => none
  | r :: t =>
    match findLastRow n t with
    | some q => some q
    | none => if lookupD r "name" == some n then some r else none

/-- The last playbook task whose lowercased name is a given key — the
task whose `Task` object survives the dict assignments of
`load_playbook`. -/
def findLastTask (k : String) : List PlayTask → Option PlayTask
  | [] => none
  | pt :: t =>
    match findLastTask k t with
    | some q => some q
    | none => if lowerS pt.name == k then some pt else none

/-- The named columns of the report:
`fieldlist = ["name", "resource_group", "public_ip_address"]`. -/
def fieldlist : List String := ["name", "resource_group", "public_ip_address"]

/-- Rendering of a cell by `csv.writer`: Python `None` becomes the empty
field. -/
def cellStr : Option String → String
  | none => ""
  | some s => s

/-- Header-cell transformation `k.upper().replace("_", " ")` (the
replaced pattern is the single character `_`, so it is a character map). -/
def headerName (k : String) : String :=
  String.mk (k.data.map (fun c => if c == '_' then ' ' else c.toUpper))

/-- The header row: upper-cased field names followed by upper-cased task
keys, in the task-dict order. -/
def headerRow (callbacks : List String) : List String :=
  (fieldlist ++ callbacks).map headerName

/-- The cells contributed by one host to the report: its three named
attributes, then `host.tasks[cb].callback_result` for each callback key
in header order.  `none` models AttributeError / KeyError. -/
def hostSegment (callbacks : List String) (h : HostR) : Option (List String) :=
  match mapO (fun f => h.getAttr f) fieldlist,
        mapO (fun cb => (lookupD h.tasks cb).map (fun t => cellStr t.callback_result)) callbacks with
  | some avals, some tvals => some (avals ++ tvals)
  | _, _ => none

/-- The report-writing loop exactly as `__main__` runs it: `values`
starts empty OUTSIDE the loop, each host's cells are `extend`ed onto it,
and the accumulated list is written as that host's row. -/
def reportGo (callbacks : List String) (values : List String) :
    List HostR → Option (List (List String))
  | [] => some []
  | h :: t =>
    match hostSegment callbacks h with
    | none => none
    | some seg =>
      match reportGo callbacks (values ++ seg) t with
      | none => none
      | some rest => some ((values ++ seg) :: rest)

/-- Outcome of the tail of `__main__` after the playbook has run: a
clean exit with an optional written report, or an uncaught exception. -/
inductive Outcome where
  | exited (code : Nat) (report : Option (List (List String)))
  | crashed
deriving DecidableEq, Repr

/-- The tail of `__main__`: exit 0 with no report file when the filtered
host dict is empty; otherwise take the callback keys from the first
host's task dict, write the header row and run the report loop. -/
def mainReport (hosts : List HostR) : Outcome :=
  match hosts with
  | [] => Outcome.exited 0 none
  | h :: _ =>
    match reportGo (h.tasks.map (fun p => p.1)) [] hosts with
    | none => Outcome.crashed
    | some rows => Outcome.exited 0 (some (headerRow (h.tasks.map (fun p => p.1)) :: rows))

/-- A pattern consisting solely of literal characters, e.g. the filter
patterns `"rg-production"`, `"running"`, `"linux"`. -/
def litPat (s : String) : List Atom := s.data.map Atom.lit

/-- Spec-side reading of one filter predicate on one host: the host has
the (lowercased-key) attribute and the lowercased pattern matches at the
start of the lowercased attribute value. -/
def attrMatches (h : HostR) (k : String) (v : List Atom) : Prop :=
  ∃ s, h.getAttr (lowerS k) = some s ∧ matchAtStart (lowerPat v) (lowerS s).data = true

/-- Spec-side reading of one inventory entry: keyed by the host's name,
carrying the host's public IP, port 22, the fixed user `ubuntu`, and the
per-host key path `<base>/<name>/<name>`. -/
def entrySpec (h : HostR) (e : String × Entry) : Prop :=
  ∃ n ip, h.getAttr "name" = some n ∧ h.getAttr "public_ip_address" = some ip ∧
    e = (n, { ansible_host := ip, ansible_port := 22, ansible_user := "ubuntu",
              ansible_ssh_private_key_file :=
                "/var/lib/jenkins/.ts/admin/rsa/azure/" ++ n ++ "/" ++ n })

/-- A concrete task state: a successful `ram_amount` run. -/
def exTask1 : TaskR :=
  { name := "ram_amount", callback_result := some "0 GB", exit_status := some "0",
    task_failed := some false }

/-- A concrete task state: a failed `ram_amount` run, result still absent. -/
def exTask2 : TaskR :=
  { name := "ram_amount", callback_result := none, exit_status := some "1",
    task_failed := some true }

/-- A concrete host as loaded from CSV and run through the playbook. -/
def exHost1 : HostR :=
  { attrs := [("name", "vm1"), ("resource_group", "rg1"),
              ("public_ip_address", "1.1.1.1"), ("status", "running")],
    tasks := [("ram_amount", exTask1)] }

/-- A second concrete host. -/
def exHost2 : HostR :=
  { attrs := [("name", "vm2"), ("resource_group", "rg2"),
              ("public_ip_address", "2.2.2.2"), ("status", "running")],
    tasks := [("ram_amount", exTask2)] }

/-- A concrete host lacking the `status` attribute. -/
def exHostNoStatus : HostR :=
  { attrs := [("name", "vm3")], tasks := [] }

/-- A concrete playbook task whose declared name is not all-lowercase. -/
def exPlayTask : PlayTask := { name := "Ram_amount" }

/-- A concrete playbook task whose declared name is already lowercase. -/
def exPlayTaskLower : PlayTask := { name := "ram_amount" }

/-- A concrete CSV data row for host `vm1`. -/
def exRow1 : Row := [("name", "vm1"), ("resource_group", "rg1")]

/-- A second concrete CSV data row carrying the same name `vm1`. -/
def exRow2 : Row := [("name", "vm1"), ("resource_group", "rg2")]

/-- The search misses when the matcher fails at every start position. -/
theorem reSearch_eq_none {α : Type} (m : List Char → Option α) (s : List Char)
    (h : ∀ i, m (s.drop i) = none) : reSearch m s = none := by
  induction s with
  | nil => simpa using h 0
  | cons c rest ih =>
    have h0 : m (c :: rest) = none := h 0
    have hr : reSearch m rest = none := ih (fun i => h (i + 1))
    simp [reSearch, h0, hr]

/-- The search returns the match at the leftmost succeeding position. -/
theorem reSearch_first {α : Type} (m : List Char → Option α) (s : List Char)
    (i : Nat) (a : α) (hm : m (s.drop i) = some a)
    (hn : ∀ j, j < i → m (s.drop j) = none) : reSearch m s = some a := by
  induction s generalizing i with
  | nil =>
    cases i with
    | zero => simpa using hm
    | succ i2 =>
      have h0 := hn 0 (Nat.succ_pos i2)
      simp only [List.drop_nil] at h0 hm
      rw [h0] at hm
      cases hm
  | cons c rest ih =>
    cases i with
    | zero =>
      simp only [List.drop_zero] at hm
      simp [reSearch, hm]
    | succ i2 =>
      have h0 := hn 0 (Nat.succ_pos i2)
      simp only [List.drop_zero] at h0
      have hrec : reSearch m rest = some a :=
        ih i2 (by simpa using hm) (fun j hj => by simpa using hn (j + 1) (Nat.succ_lt_succ hj))
      simp [reSearch, h0, hrec]

/-- Claim C2, counterexample: the first `<integer> kB` occurrence of the
input `"16384 kB"` yields `"0 GB"` (since `round(16384 * 10 ** -6) = 0`),
not the `"16 GB"` the claim states. -/
theorem c2_counterexample :
    ram_amount "16384 kB" = some "0 GB" ∧ ram_amount "16384 kB" ≠ some "16 GB" := by
  refine ⟨rfl, ?_⟩
  intro h
  rw [show ram_amount "16384 kB" = some "0 GB" from rfl] at h
  simp at h

/-- Claim C2 (amended): the RAM-amount parser searches its input for the
leftmost occurrence of an integer followed by optional whitespace and
`kB`, converts kilobytes to gigabytes by multiplying by `10 ** -6` and
rounding to the nearest integer, and formats the result as `"<N> GB"`;
in particular `"16384 kB"` yields `"0 GB"` and `"2000000 kB"` yields
`"2 GB"`. -/
theorem c2_ram_amount_rounding :
    ram_amount "16384 kB" = some "0 GB" ∧ ram_amount "2000000 kB" = some "2 GB" ∧
    ∀ (s : String) (i k : Nat),
      kbAt (s.data.drop i) = some k →
      (∀ j, j < i → kbAt (s.data.drop j) = none) →
      ram_amount s = some (toString (pyRound k) ++ " GB") := by
  refine ⟨rfl, rfl, ?_⟩
  intro s i k hm hn
  unfold ram_amount
  rw [reSearch_first kbAt s.data i k hm hn]
  rfl

/-- Witness for the amended C2 theorem at the concrete input `"7 kB"`. -/
theorem c2_ram_amount_rounding_witness :
    ram_amount "7 kB" = some (toString (pyRound 7) ++ " GB") :=
  c2_ram_amount_rounding.2.2 "7 kB" 0 7 rfl (fun j hj => absurd hj (Nat.not_lt_zero j))

/-- Claim C7: the failure and unreachable handlers write only
`exit_status` and `task_failed` (the latter to `True`); `callback_result`
(and the task name) are left unchanged, and no parser is consulted (the
handlers do not touch `callbackRegistry`). -/
theorem c7_failure_frame (t : TaskR) (rc : String) :
    (v2_runner_on_failed t rc).callback_result = t.callback_result ∧
    (v2_runner_on_failed t rc).name = t.name ∧
    (v2_runner_on_failed t rc).task_failed = some true ∧
    (v2_runner_on_failed t rc).exit_status = some rc ∧
    (v2_runner_on_unreachable t rc).callback_result = t.callback_result ∧
    (v2_runner_on_unreachable t rc).name = t.name ∧
    (v2_runner_on_unreachable t rc).task_failed = some true ∧
    (v2_runner_on_unreachable t rc).exit_status = some rc :=
  ⟨rfl, rfl, rfl, rfl, rfl, rfl, rfl, rfl⟩

/-- Claim C8: when filtering yields zero hosts, the tail of `__main__`
exits with status 0 and produces no report. -/
theorem c8_empty_selection (hosts : List HostR)
    (fields : Option (List (String × List Atom))) (res : List HostR)
    (hres : filter_hosts hosts fields = some res) (hempty : res = []) :
    mainReport res = Outcome.exited 0 none := by
  subst hempty
  rfl

/-- Witness for C8: a concrete filter that selects nothing, followed by a
clean exit without a report. -/
theorem c8_empty_selection_witness :
    mainReport ([] : List HostR) = Outcome.exited 0 none :=
  c8_empty_selection [exHost1] (some [("status", litPat "stopped")]) [] rfl rfl

/-- Claim C1, code evaluation at the failing input: with two filtered
hosts, the `values` list of the report loop is never reset, so the second
data row repeats the first host's cells before the second host's cells
instead of holding only the second host's cells. -/
theorem c1_report_rows_accumulate :
    mainReport [exHost1, exHost2] =
      Outcome.exited 0 (some
        [["NAME", "RESOURCE GROUP", "PUBLIC IP ADDRESS", "RAM AMOUNT"],
         ["vm1", "rg1", "1.1.1.1", "0 GB"],
         ["vm1", "rg1", "1.1.1.1", "0 GB", "vm2", "rg2", "2.2.2.2", ""]]) ∧
    hostSegment ["ram_amount"] exHost2 = some ["vm2", "rg2", "2.2.2.2", ""] := by
  exact ⟨rfl, rfl⟩

/-- The `takeWhile` of a predicate false on every element is empty. -/
theorem takeWhile_eq_nil_of_false {p : Char → Bool} {l : List Char}
    (h : ∀ c ∈ l, p c = false) : l.takeWhile p = [] := by
  cases l with
  | nil => rfl
  | cons c t =>
    have hc : p c = false := h c (List.mem_cons_self c t)
    simp [List.takeWhile_cons, hc]

/-- Every element of `dropWhile p l` is an element of `l`. -/
theorem mem_of_mem_dropWhile {p : Char → Bool} {l : List Char} {c : Char}
    (h : c ∈ l.dropWhile p) : c ∈ l := by
  induction l with
  | nil => simp at h
  | cons d t ih =>
    rw [List.dropWhile_cons] at h
    by_cases hd : p d = true
    · simp only [hd, if_true] at h
      exact List.mem_cons_of_mem d (ih h)
    · simp only [hd, if_false] at h
      exact h

/-- Every element of `drop n l` is an element of `l`. -/
theorem mem_of_mem_drop {l : List Char} {n : Nat} {c : Char}
    (h : c ∈ l.drop n) : c ∈ l := by
  induction l generalizing n with
  | nil => simp at h
  | cons d t ih =>
    cases n with
    | zero => simpa using h
    | succ n2 =>
      simp only [List.drop_succ_cons] at h
      exact List.mem_cons_of_mem d (ih h)

/-- The `kB` matcher fails on digit-free text. -/
theorem kbAt_eq_none {s : List Char} (h : ∀ c ∈ s, c.isDigit = false) :
    kbAt s = none := by
  unfold kbAt
  simp [takeWhile_eq_nil_of_false h]

/-- The `CPU(s):` matcher fails on digit-free text. -/
theorem cpuAt_eq_none {s : List Char} (h : ∀ c ∈ s, c.isDigit = false) :
    cpuAt s = none := by
  unfold cpuAt
  split
  · next rest =>
    have hrest : ∀ c ∈ (rest.dropWhile isSpaceC), c.isDigit = false := by
      intro c hc
      exact h c (by simp [mem_of_mem_dropWhile hc])
    simp [takeWhile_eq_nil_of_false hrest]
  · rfl

/-- The `MEM` matcher fails on text free of digits and dots. -/
theorem memAt_eq_none {s : List Char} (h : ∀ c ∈ s, isDotDigit c = false) :
    memAt s = none := by
  unfold memAt
  split
  · next rest =>
    have hrest : ∀ c ∈ (rest.dropWhile isSpaceC), isDotDigit c = false := by
      intro c hc
      exact h c (by simp [mem_of_mem_dropWhile hc])
    simp [takeWhile_eq_nil_of_false hrest]
  · rfl

/-- The bare `CPU` matcher fails on text free of digits and dots. -/
theorem cpuPctAt_eq_none {s : List Char} (h : ∀ c ∈ s, isDotDigit c = false) :
    cpuPctAt s = none := by
  unfold cpuPctAt
  split
  · next rest =>
    have hrest : ∀ c ∈ (rest.dropWhile isSpaceC), isDotDigit c = false := by
      intro c hc
      exact h c (by simp [mem_of_mem_dropWhile hc])
    simp [takeWhile_eq_nil_of_false hrest]
  · rfl

/-- Claim C4, counterexample: `"MEM ."` contains no digit — no
recognizable numeric pattern — yet `peak_ram_usage` does not return the
absence value: the `[\d.]+` group matches the bare dot and yields
`".%"`. -/
theorem c4_counterexample :
    (∀ c ∈ "MEM .".data, c.isDigit = false) ∧
    peak_ram_usage "MEM ." = some ".%" ∧ peak_ram_usage "MEM ." ≠ none := by
  refine ⟨by decide, rfl, ?_⟩
  intro h
  rw [show peak_ram_usage "MEM ." = some ".%" from rfl] at h
  cases h

/-- Claim C4 (amended): on digit-free input, `ram_amount` and
`cpu_number` return `None`; on input free of digits and of `.`,
all four parsers return `None`.  (A digit-free input containing `MEM .`
or `CPU .` makes the two peak parsers return a value, since their
`[\d.]+` group accepts a bare dot.) -/
theorem c4_no_numeric_pattern (s : String) :
    ((∀ c ∈ s.data, c.isDigit = false) →
      ram_amount s = none ∧ cpu_number s = none) ∧
    ((∀ c ∈ s.data, isDotDigit c = false) →
      ram_amount s = none ∧ cpu_number s = none ∧
      peak_ram_usage s = none ∧ peak_cpu_usage s = none) := by
  constructor
  · intro h
    constructor
    · unfold ram_amount
      rw [reSearch_eq_none kbAt s.data
        (fun i => kbAt_eq_none (fun c hc => h c (mem_of_mem_drop hc)))]
      rfl
    · unfold cpu_number
      rw [reSearch_eq_none cpuAt s.data
        (fun i => cpuAt_eq_none (fun c hc => h c (mem_of_mem_drop hc)))]
      rfl
  · intro h
    have hd : ∀ c ∈ s.data, c.isDigit = false := by
      intro c hc
      have := h c hc
      unfold isDotDigit at this
      exact (Bool.or_eq_false_iff.mp this).1
    refine ⟨?_, ?_, ?_, ?_⟩
    · unfold ram_amount
      rw [reSearch_eq_none kbAt s.data
        (fun i => kbAt_eq_none (fun c hc => hd c (mem_of_mem_drop hc)))]
      rfl
    · unfold cpu_number
      rw [reSearch_eq_none cpuAt s.data
        (fun i => cpuAt_eq_none (fun c hc => hd c (mem_of_mem_drop hc)))]
      rfl
    · unfold peak_ram_usage
      rw [reSearch_eq_none memAt s.data
        (fun i => memAt_eq_none (fun c hc => h c (mem_of_mem_drop hc)))]
      rfl
    · unfold peak_cpu_usage
      rw [reSearch_eq_none cpuPctAt s.data
        (fun i => cpuPctAt_eq_none (fun c hc => h c (mem_of_mem_drop hc)))]
      rfl

/-- Witness for the amended C4 theorem at the concrete input `"hello"`. -/
theorem c4_no_numeric_pattern_witness :
    ram_amount "hello" = none ∧ cpu_number "hello" = none ∧
    peak_ram_usage "hello" = none ∧ peak_cpu_usage "hello" = none :=
  (c4_no_numeric_pattern "hello").2 (by decide)

/-- The check `has_fields` cannot raise on a host possessing every named
attribute. -/
theorem has_fields_ne_none (h : HostR) (fs : List (String × List Atom))
    (hall : ∀ p ∈ fs, ∃ s, h.getAttr (lowerS p.1) = some s) :
    h.has_fields fs ≠ none := by
  induction fs with
  | nil => simp [HostR.has_fields]
  | cons p rest ih =>
    obtain ⟨k, v⟩ := p
    obtain ⟨s, hs⟩ := hall (k, v) (List.mem_cons_self _ _)
    simp only [HostR.has_fields, hs]
    by_cases hm : matchAtStart (lowerPat v) (lowerS s).data = true
    · simp only [hm, if_true]
      exact ih (fun q hq => hall q (List.mem_cons_of_mem _ hq))
    · simp [hm]

/-- Claim C5, counterexample: filtering the host `vm3`, which lacks the
`status` attribute, on a `status` predicate raises (AttributeError) —
the host is not silently excluded and the operation is not total. -/
theorem c5_counterexample :
    filter_hosts [exHostNoStatus] (some [("status", litPat "running")]) = none ∧
    filter_hosts [exHostNoStatus] (some [("status", litPat "running")]) ≠ some [] := by
  refine ⟨rfl, ?_⟩
  intro h
  rw [show filter_hosts [exHostNoStatus] (some [("status", litPat "running")]) = none
    from rfl] at h
  cases h

/-- Claim C5 (amended): a host that lacks an attribute named by a filter
predicate makes filtering raise an AttributeError when that predicate is
reached (it is not excluded, and the operation is not total there);
filtering is total on host sets in which every host possesses every
named attribute. -/
theorem c5_filter_total_iff_attrs_present (hosts : List HostR)
    (fs : List (String × List Atom))
    (hall : ∀ h ∈ hosts, ∀ p ∈ fs, ∃ s, h.getAttr (lowerS p.1) = some s) :
    ∃ res, filter_hosts hosts (some fs) = some res := by
  show ∃ res, filterGo fs hosts = some res
  induction hosts with
  | nil => exact ⟨[], rfl⟩
  | cons h t ih =>
    obtain ⟨res, hres⟩ := ih (fun h2 hh2 => hall h2 (List.mem_cons_of_mem _ hh2))
    have hne := has_fields_ne_none h fs (hall h (List.mem_cons_self _ _))
    cases hf : h.has_fields fs with
    | none => exact absurd hf hne
    | some b =>
      cases b with
      | true => exact ⟨h :: res, by simp [filterGo, hf, hres]⟩
      | false => exact ⟨res, by simp [filterGo, hf, hres]⟩

/-- Witness for the amended C5 theorem on a concrete complete host. -/
theorem c5_filter_total_witness :
    ∃ res, filter_hosts [exHost1] (some [("status", litPat "running")]) = some res :=
  c5_filter_total_iff_attrs_present [exHost1] [("status", litPat "running")]
    (by intro h hh p hp
        simp only [List.mem_singleton] at hh hp
        subst hh
        subst hp
        exact ⟨"running", rfl⟩)

/-- The check `has_fields` answers `True` exactly when every predicate pair
matches (lowercased pattern, matched at the start of the lowercased
attribute value). -/
theorem has_fields_eq_true_iff (h : HostR) (fs : List (String × List Atom)) :
    h.has_fields fs = some true ↔ ∀ p ∈ fs, attrMatches h p.1 p.2 := by
  induction fs with
  | nil => simp [HostR.has_fields]
  | cons p rest ih =>
    obtain ⟨k, v⟩ := p
    simp only [HostR.has_fields, List.forall_mem_cons]
    cases hh : h.getAttr (lowerS k) with
    | none =>
      constructor
      · intro hc; simp at hc
      · intro hall
        obtain ⟨s, hs, _⟩ := hall.1
        rw [hh] at hs
        cases hs
    | some s =>
      by_cases hm : matchAtStart (lowerPat v) (lowerS s).data = true
      · simp only [hm, if_true, ih]
        constructor
        · intro hr; exact ⟨⟨s, hh, hm⟩, hr⟩
        · intro hall; exact hall.2
      · rw [Bool.not_eq_true] at hm
        simp only [hm, Bool.false_eq_true, if_false]
        constructor
        · intro hc; simp at hc
        · intro hall
          obtain ⟨s2, hs2, hm2⟩ := hall.1
          rw [hh] at hs2
          injection hs2 with he
          subst he
          rw [hm] at hm2
          cases hm2

/-- Membership in a successful filtering result: precisely the input
hosts whose `has_fields` answered `True`. -/
theorem filterGo_mem (fs : List (String × List Atom)) (hosts : List HostR)
    (res : List HostR) (hres : filterGo fs hosts = some res) (h : HostR) :
    h ∈ res ↔ h ∈ hosts ∧ h.has_fields fs = some true := by
  induction hosts generalizing res with
  | nil =>
    simp only [filterGo] at hres
    injection hres with he
    subst he
    simp
  | cons h0 t ih =>
    simp only [filterGo] at hres
    cases hf : h0.has_fields fs with
    | none =>
      rw [hf] at hres
      cases hres
    | some b =>
      rw [hf] at hres
      cases b with
      | true =>
        cases hg : filterGo fs t with
        | none =>
          rw [hg] at hres
          cases hres
        | some r =>
          rw [hg] at hres
          simp only [Option.map_some'] at hres
          injection hres with he
          subst he
          have ihr := ih r hg
          constructor
          · intro hmem
            rcases List.mem_cons.mp hmem with he | hm
            · subst he
              exact ⟨List.mem_cons_self _ _, hf⟩
            · obtain ⟨ht, hff⟩ := ihr.mp hm
              exact ⟨List.mem_cons_of_mem _ ht, hff⟩
          · intro hand
            rcases List.mem_cons.mp hand.1 with he | hm
            · subst he
              exact List.mem_cons_self _ _
            · exact List.mem_cons_of_mem _ (ihr.mpr ⟨hm, hand.2⟩)
      | false =>
        have ihr := ih res hres
        rw [ihr]
        constructor
        · intro hand
          exact ⟨List.mem_cons_of_mem _ hand.1, hand.2⟩
        · intro hand
          rcases List.mem_cons.mp hand.1 with he | hm
          · have hff := hand.2
            subst he
            rw [hf] at hff
            injection hff with hb
            cases hb
          · exact ⟨hm, hand.2⟩

/-- Claim C6: filtering is conjunctive and case-insensitively anchored —
a host is in a successful filtering result exactly when it is an input
host and, for every predicate pair, the lowercased pattern matches at
the start of the host's lowercased attribute value; consequently
replacing any single predicate's pattern by one that does not match the
host removes the host from the result. -/
theorem c6_filter_conjunctive_anchored (hosts : List HostR)
    (fs : List (String × List Atom)) (res : List HostR) (h : HostR)
    (hres : filter_hosts hosts (some fs) = some res) :
    (h ∈ res ↔ h ∈ hosts ∧ ∀ p ∈ fs, attrMatches h p.1 p.2) ∧
    (∀ (pre post : List (String × List Atom)) (k : String) (v v2 : List Atom)
       (res2 : List HostR),
       fs = pre ++ (k, v) :: post →
       ¬ attrMatches h k v2 →
       filter_hosts hosts (some (pre ++ (k, v2) :: post)) = some res2 →
       h ∉ res2) := by
  have hres2 : filterGo fs hosts = some res := hres
  constructor
  · rw [filterGo_mem fs hosts res hres2 h, has_fields_eq_true_iff]
  · intro pre post k v v2 res2 hfs hnm hres3 hmem
    have hres4 : filterGo (pre ++ (k, v2) :: post) hosts = some res2 := hres3
    have hmm := (filterGo_mem _ hosts res2 hres4 h).mp hmem
    have hall := (has_fields_eq_true_iff h _).mp hmm.2
    exact hnm (hall (k, v2) (by simp))

/-- Witness for C6 on a concrete host and predicate list. -/
theorem c6_filter_conjunctive_witness :
    exHost1 ∈ [exHost1] ∧ ∀ p ∈ [("status", litPat "running")], attrMatches exHost1 p.1 p.2 :=
  (c6_filter_conjunctive_anchored [exHost1] [("status", litPat "running")]
    [exHost1] exHost1 rfl).1.mp (List.mem_singleton.mpr rfl)

/-- Lookup on a nonempty association list. -/
theorem lookupD_cons {α : Type} (k0 : String) (v0 : α) (t : List (String × α)) (k2 : String) :
    lookupD ((k0, v0) :: t) k2 = if k0 == k2 then some v0 else lookupD t k2 := by
  simp only [lookupD, List.find?]
  cases h : k0 == k2 <;> simp [h]

/-- Lookup after a dict assignment. -/
theorem lookupD_dictInsert {α : Type} (d : List (String × α)) (k k2 : String) (v : α) :
    lookupD (dictInsert d k v) k2 = if k == k2 then some v else lookupD d k2 := by
  induction d with
  | nil =>
    show lookupD [(k, v)] k2 = _
    rw [lookupD_cons]
  | cons p t ih =>
    obtain ⟨k0, v0⟩ := p
    by_cases h0 : k0 = k
    · subst h0
      simp only [dictInsert, beq_self_eq_true, if_true]
      rw [lookupD_cons, lookupD_cons]
      by_cases h2 : k0 = k2
      · simp [h2]
      · have h2b : (k0 == k2) = false := by simp [h2]
        simp [h2b]
    · have h0b : (k0 == k) = false := by simp [h0]
      simp only [dictInsert, h0b, Bool.false_eq_true, if_false]
      rw [lookupD_cons, ih, lookupD_cons]
      by_cases h3 : k = k2
      · subst h3
        have h4 : (k0 == k) = false := h0b
        simp [h4]
      · have h3b : (k == k2) = false := by simp [h3]
        simp [h3b]

/-- Lookup into the task dict built by `load_playbook`: the last playbook
task whose lowercased name equals the key wins. -/
theorem lookupD_buildTasks (pts : List PlayTask) (d : List (String × TaskR)) (k : String) :
    lookupD (buildTasks d pts) k =
      match findLastTask k pts with
      | some q => some (mkTask q)
      | none => lookupD d k := by
  induction pts generalizing d with
  | nil => simp [buildTasks, findLastTask]
  | cons pt t ih =>
    show lookupD (buildTasks (dictInsert d (lowerS pt.name) (mkTask pt)) t) k = _
    rw [ih]
    simp only [findLastTask]
    cases hf : findLastTask k t with
    | some q => simp
    | none =>
      rw [lookupD_dictInsert]
      by_cases he : lowerS pt.name = k
      · simp [he]
      · have heb : (lowerS pt.name == k) = false := by simp [he]
        simp [heb]

/-- A parser can be fetched from `ansible_callbacks` exactly for the four
registry names (the `getattr` lookup is case-sensitive). -/
theorem callbackRegistry_names (n : String) :
    (lookupD callbackRegistry n).isSome = true ↔
      n = "ram_amount" ∨ n = "cpu_number" ∨ n = "peak_ram_usage" ∨ n = "peak_cpu_usage" := by
  by_cases h1 : n = "ram_amount"
  · subst h1; simp [callbackRegistry, lookupD]
  · by_cases h2 : n = "cpu_number"
    · subst h2; simp [callbackRegistry, lookupD]
    · by_cases h3 : n = "peak_ram_usage"
      · subst h3; simp [callbackRegistry, lookupD]
      · by_cases h4 : n = "peak_cpu_usage"
        · subst h4; simp [callbackRegistry, lookupD]
        · have h1b : ("ram_amount" == n) = false := by simp; exact fun e => h1 e.symm
          have h2b : ("cpu_number" == n) = false := by simp; exact fun e => h2 e.symm
          have h3b : ("peak_ram_usage" == n) = false := by simp; exact fun e => h3 e.symm
          have h4b : ("peak_cpu_usage" == n) = false := by simp; exact fun e => h4 e.symm
          simp [callbackRegistry, lookupD, List.find?, h1b, h2b, h3b, h4b, h1, h2, h3, h4]

/-- Claim C3, counterexample: with the playbook task declared as
`Ram_amount`, `load_playbook` stores the task under the lowercased key
`ram_amount`, but the Result Collector's two lookups use the declared
name verbatim: `get_task` raises KeyError and the `getattr` parser
lookup raises AttributeError, so neither lookup succeeds despite the
task being attached. -/
theorem c3_counterexample :
    get_task (load_playbook [exHost1] [exPlayTask]) "vm1" exPlayTask.name = none ∧
    lookupD callbackRegistry exPlayTask.name = none ∧
    lowerS exPlayTask.name = "ram_amount" :=
  ⟨rfl, rfl, rfl⟩

/-- Claim C3 (amended): the Result Collector resolves the TaskResult
entry and the output parser by the task's declared name used verbatim
(case-sensitively); since `load_playbook` keys the task dict by the
lowercased declared name, the TaskResult lookup succeeds precisely for
tasks whose declared name is already lowercase (here: the last playbook
task stored under that key), and the parser lookup succeeds precisely
for the four registry names. -/
theorem c3_lookup_requires_lowercase_names (hosts : List HostR) (pts : List PlayTask)
    (pt : PlayTask) (hostname : String) (h : HostR)
    (hlast : findLastTask pt.name pts = some pt)
    (hfind : (load_playbook hosts pts).find?
      (fun x => x.getAttr "name" == some hostname) = some h) :
    get_task (load_playbook hosts pts) hostname pt.name = some (mkTask pt) ∧
    ((lookupD callbackRegistry pt.name).isSome = true ↔
      pt.name ∈ ["ram_amount", "cpu_number", "peak_ram_usage", "peak_cpu_usage"]) := by
  constructor
  · unfold get_task
    rw [hfind]
    have hmem : h ∈ load_playbook hosts pts := List.mem_of_find?_eq_some hfind
    unfold load_playbook at hmem
    obtain ⟨h0, _, hh0⟩ := List.mem_map.mp hmem
    have htasks : h.tasks = buildTasks h0.tasks pts := by rw [← hh0]
    show lookupD h.tasks pt.name = some (mkTask pt)
    rw [htasks, lookupD_buildTasks, hlast]
  · rw [callbackRegistry_names]
    simp

/-- Witness for the amended C3 theorem: an all-lowercase declared task
name makes both lookups succeed. -/
theorem c3_lookup_requires_lowercase_names_witness :
    get_task (load_playbook [exHost1] [exPlayTaskLower]) "vm1" exPlayTaskLower.name =
      some (mkTask exPlayTaskLower) ∧
    ((lookupD callbackRegistry exPlayTaskLower.name).isSome = true ↔
      exPlayTaskLower.name ∈ ["ram_amount", "cpu_number", "peak_ram_usage", "peak_cpu_usage"]) :=
  c3_lookup_requires_lowercase_names [exHost1] [exPlayTaskLower] exPlayTaskLower "vm1"
    { attrs := exHost1.attrs, tasks := [("ram_amount", mkTask exPlayTaskLower)] } rfl rfl

/-- A successful `mapO` run relates inputs and outputs pointwise. -/
theorem mapO_eq_some_forall2 {α β : Type} (f : α → Option β) (l : List α) (l2 : List β)
    (h : mapO f l = some l2) : List.Forall₂ (fun a b => f a = some b) l l2 := by
  induction l generalizing l2 with
  | nil =>
    injection h with he
    subst he
    exact List.Forall₂.nil
  | cons a t ih =>
    simp only [mapO] at h
    cases hf : f a with
    | none =>
      rw [hf] at h
      cases h
    | some b =>
      rw [hf] at h
      cases hm : mapO f t with
      | none =>
        rw [hm] at h
        cases h
      | some bs =>
        rw [hm] at h
        injection h with he
        subst he
        exact List.Forall₂.cons hf (ih bs hm)

/-- A built inventory entry satisfies the spec-side entry description. -/
theorem entryOf_spec (h : HostR) (e : String × Entry) (he : entryOf h = some e) :
    entrySpec h e := by
  unfold entryOf at he
  cases hn : h.getAttr "name" with
  | none =>
    rw [hn] at he
    cases he
  | some n =>
    cases hip : h.getAttr "public_ip_address" with
    | none =>
      rw [hn, hip] at he
      cases he
    | some ip =>
      rw [hn, hip] at he
      injection he with he2
      exact ⟨n, ip, hn, hip, he2.symm⟩

/-- Claim C9: a successful `generate_yaml` run writes exactly one
inventory entry per filtered host — keyed by the host's name, with the
host's public IP as connection address, port 22, the fixed user
`ubuntu`, and the `<base>/<hostname>/<hostname>` key path — and returns
exactly the host set that filtering with the given predicates
produces. -/
theorem c9_generate_yaml_inventory (hosts : List HostR)
    (fields : Option (List (String × List Atom)))
    (inv : List (String × Entry)) (ret : List HostR)
    (hgen : generate_yaml hosts fields = some (inv, ret)) :
    filter_hosts hosts fields = some ret ∧
    List.Forall₂ entrySpec ret inv ∧
    inv.length = ret.length := by
  unfold generate_yaml at hgen
  cases hf : filter_hosts hosts fields with
  | none =>
    rw [hf] at hgen
    cases hgen
  | some hs =>
    rw [hf] at hgen
    cases hm : mapO entryOf hs with
    | none =>
      simp only [hm] at hgen
      cases hgen
    | some inv0 =>
      simp only [hm] at hgen
      injection hgen with he
      have he1 : inv0 = inv := congrArg Prod.fst he
      have he2 : hs = ret := congrArg Prod.snd he
      subst he1
      subst he2
      have hforall := (mapO_eq_some_forall2 entryOf hs inv0 hm).imp
        (fun hx ex hxe => entryOf_spec hx ex hxe)
      exact ⟨rfl, hforall, (List.Forall₂.length_eq hforall).symm⟩

/-- Witness for C9 on a concrete host with no filter predicates. -/
theorem c9_generate_yaml_inventory_witness :
    filter_hosts [exHost1] none = some [exHost1] ∧
    List.Forall₂ entrySpec [exHost1]
      [("vm1", { ansible_host := "1.1.1.1", ansible_port := 22, ansible_user := "ubuntu",
                 ansible_ssh_private_key_file := "/var/lib/jenkins/.ts/admin/rsa/azure/vm1/vm1" })] ∧
    ([("vm1", ({ ansible_host := "1.1.1.1", ansible_port := 22, ansible_user := "ubuntu",
                 ansible_ssh_private_key_file := "/var/lib/jenkins/.ts/admin/rsa/azure/vm1/vm1" } : Entry))].length
      = [exHost1].length) :=
  c9_generate_yaml_inventory [exHost1] none _ [exHost1] rfl

/-- Lookup into the registry built by the dict comprehension of
`load_from_csv`: the last row bearing the name wins. -/
theorem loadCSVgo_lookup (rows : List Row) (d : List (String × HostR))
    (res : List (String × HostR)) (hload : loadCSVgo d rows = some res) (n : String) :
    lookupD res n =
      match findLastRow n rows with
      | some r => some (mkHost r)
      | none => lookupD d n := by
  induction rows generalizing d with
  | nil =>
    injection hload with he
    subst he
    simp [findLastRow]
  | cons r t ih =>
    simp only [loadCSVgo] at hload
    cases hr : lookupD r "name" with
    | none =>
      rw [hr] at hload
      cases hload
    | some m =>
      rw [hr] at hload
      rw [ih (dictInsert d m (mkHost r)) hload]
      simp only [findLastRow]
      cases hf : findLastRow n t with
      | some q => simp
      | none =>
        rw [lookupD_dictInsert, hr]
        by_cases hmn : m = n
        · subst hmn
          simp
        · have hb1 : (m == n) = false := beq_false_of_ne hmn
          have hb2 : ((some m : Option String) == some n) = false :=
            beq_false_of_ne (fun he => hmn (Option.some.inj he))
          simp [hb1, hb2]

/-- A name has a surviving row exactly when some row bears it. -/
theorem findLastRow_isSome_iff (n : String) (rows : List Row) :
    (findLastRow n rows).isSome = true ↔ ∃ r ∈ rows, lookupD r "name" = some n := by
  induction rows with
  | nil => simp [findLastRow]
  | cons r t ih =>
    simp only [findLastRow]
    cases hf : findLastRow n t with
    | some q =>
      have hex := ih.mp (by rw [hf]; rfl)
      obtain ⟨r2, hr2, hn2⟩ := hex
      simp only [Option.isSome_some, true_iff]
      exact ⟨r2, List.mem_cons_of_mem _ hr2, hn2⟩
    | none =>
      have hnt : ¬ ∃ r2 ∈ t, lookupD r2 "name" = some n := by
        rw [← ih, hf]
        simp
      by_cases hr : lookupD r "name" = some n
      · rw [hr]
        simp only [beq_self_eq_true, if_true, Option.isSome_some, true_iff]
        exact ⟨r, List.mem_cons_self _ _, hr⟩
      · have hb : (lookupD r "name" == some n) = false := beq_false_of_ne hr
        rw [hb]
        simp only [Bool.false_eq_true, if_false, Option.isSome_none]
        constructor
        · intro hc
          cases hc
        · intro hex
          obtain ⟨r2, hr2, hn2⟩ := hex
          rcases List.mem_cons.mp hr2 with he | hm
          · subst he
            exact absurd hn2 hr
          · exact absurd ⟨r2, hm, hn2⟩ hnt

/-- Claim C10: duplicate `name` values in the CSV keep only the host
built from the last such row — the registry maps each name to the host
of the final row bearing it, and a key is present exactly when some row
bears that name. -/
theorem c10_duplicate_names_last_wins (rows : List Row) (reg : List (String × HostR))
    (hload : load_from_csv rows = some reg) (n : String) :
    lookupD reg n = (findLastRow n rows).map mkHost ∧
    ((lookupD reg n).isSome = true ↔ ∃ r ∈ rows, lookupD r "name" = some n) := by
  have h1 := loadCSVgo_lookup rows [] reg hload n
  have h2 : lookupD reg n = (findLastRow n rows).map mkHost := by
    rw [h1]
    cases findLastRow n rows <;> simp [lookupD]
  refine ⟨h2, ?_⟩
  rw [h2, ← findLastRow_isSome_iff]
  cases findLastRow n rows <;> simp

/-- Witness for C10 on two concrete rows sharing the name `vm1`. -/
theorem c10_duplicate_names_last_wins_witness :
    lookupD [("vm1", mkHost exRow2)] "vm1" = (findLastRow "vm1" [exRow1, exRow2]).map mkHost ∧
    ((lookupD [("vm1", mkHost exRow2)] "vm1").isSome = true ↔
      ∃ r ∈ [exRow1, exRow2], lookupD r "name" = some "vm1") :=
  c10_duplicate_names_last_wins [exRow1, exRow2] [("vm1", mkHost exRow2)] rfl "vm1"
